import Mathlib

/-!
Verification development for the medqc pipeline (Python sources:
medqc_timeline.py, medqc_entities.py, medqc_rules.py, medqc_db.py).

The definitions below are a shallow embedding of the timeline-and-rule
engine: Python `datetime` values are modelled by `Medqc.PyDateTime`
(Nat fields), fallible parsing by `Option`, database tables by lists of
records, and Python's stable `list.sort(key=...)` by `List.mergeSort`
with a total boolean comparison on the sort key.
-/

namespace Medqc

/-- Leap-year test of the proleptic Gregorian calendar, as used by
Python's `datetime` module. -/
def isLeap (y : Nat) : Bool :=
  (y % 4 == 0 && y % 100 != 0) || (y % 400 == 0)

/-- Number of days in month `m` of year `y` (Gregorian), mirroring
Python's `calendar`/`datetime` validation. -/
def daysInMonth (y m : Nat) : Nat :=
  if m == 2 then (if isLeap y then 29 else 28)
  else if m == 4 || m == 6 || m == 9 || m == 11 then 30
  else 31

/-- Model of a Python `datetime.datetime` value (naive, second precision;
the repository never produces fractional seconds or timezones). -/
structure PyDateTime where
  year : Nat
  month : Nat
  day : Nat
  hour : Nat
  minute : Nat
  second : Nat
deriving DecidableEq, Repr

/-- Model of a Python `datetime.date` value. -/
structure PyDate where
  year : Nat
  month : Nat
  day : Nat
deriving DecidableEq, Repr

/-- Python's `datetime.date()` projection. -/
def PyDateTime.date (t : PyDateTime) : PyDate :=
  ⟨t.year, t.month, t.day⟩

/-- Zero-pad a natural number to two decimal digits, as Python's
`%02d` / `str.zfill(2)` does for the values in range here. -/
def pad2 (n : Nat) : String :=
  if n < 10 then "0" ++ toString n else toString n

/-- Zero-pad a natural number to four decimal digits (`%04d`). -/
def pad4 (n : Nat) : String :=
  if n < 10 then "000" ++ toString n
  else if n < 100 then "00" ++ toString n
  else if n < 1000 then "0" ++ toString n
  else toString n

/-- Python's `str(date)`: `YYYY-MM-DD`. -/
def PyDate.iso (d : PyDate) : String :=
  pad4 d.year ++ "-" ++ pad2 d.month ++ "-" ++ pad2 d.day

/-- Python's `datetime.isoformat(timespec="minutes")`:
`YYYY-MM-DDTHH:MM`. -/
def PyDateTime.isoMinutes (t : PyDateTime) : String :=
  pad4 t.year ++ "-" ++ pad2 t.month ++ "-" ++ pad2 t.day ++ "T" ++
    pad2 t.hour ++ ":" ++ pad2 t.minute

/-- Python's `datetime.isoformat()` with zero microseconds:
`YYYY-MM-DDTHH:MM:SS`. -/
def PyDateTime.isoSeconds (t : PyDateTime) : String :=
  t.isoMinutes ++ ":" ++ pad2 t.second

/-- Cumulative day count before month `m` in year `y`. -/
def daysBeforeMonth (y m : Nat) : Nat :=
  (List.range m).foldl (fun acc k => if 1 ≤ k then acc + daysInMonth y k else acc) 0

/-- Python's `date.toordinal()`: day number in the proleptic Gregorian
calendar with `date(1,1,1).toordinal() = 1`. -/
def PyDate.toOrdinal (d : PyDate) : Nat :=
  365 * (d.year - 1) + (d.year - 1) / 4 - (d.year - 1) / 100 + (d.year - 1) / 400 +
    daysBeforeMonth d.year d.month + d.day

/-- Successor day in the Gregorian calendar (`date + timedelta(days=1)`). -/
def PyDate.next (d : PyDate) : PyDate :=
  if d.day < daysInMonth d.year d.month then ⟨d.year, d.month, d.day + 1⟩
  else if d.month < 12 then ⟨d.year, d.month + 1, 1⟩
  else ⟨d.year + 1, 1, 1⟩

/-- Python's `date + timedelta(days=n)` for `n ≥ 0`. -/
def PyDate.addDays (d : PyDate) : Nat → PyDate
  | 0 => d
  | n + 1 => (d.addDays n).next

/-- Validating `datetime(...)` construction: Python raises `ValueError`
outside these bounds; the callers in this repository catch the error,
so construction is modelled as `Option`. -/
def mkDateTime (y m d hh mi ss : Nat) : Option PyDateTime :=
  if 1 ≤ y && y ≤ 9999 && 1 ≤ m && m ≤ 12 && 1 ≤ d && d ≤ daysInMonth y m
      && hh ≤ 23 && mi ≤ 59 && ss ≤ 59 then
    some ⟨y, m, d, hh, mi, ss⟩
  else none

/-! Character-level parsing helpers shared by the embeddings of
`datetime.strptime`, `datetime.fromisoformat` and the `DT_RE` regex. -/

/-- Python's `str.strip()`: drop leading and trailing whitespace. -/
def pyStrip (s : String) : String :=
  (((s.toList.dropWhile Char.isWhitespace).reverse.dropWhile Char.isWhitespace).reverse).asString

/-- Lexicographic (code-point) comparison of character lists; this is
exactly Python's `<=` on strings, used by `sorted`/`list.sort`. -/
def strLeB : List Char → List Char → Bool
  | [], _ => true
  | _ :: _, [] => false
  | a :: as, b :: bs =>
    if a.toNat < b.toNat then true
    else if b.toNat < a.toNat then false
    else strLeB as bs

/-- Python string `<=` lifted to Lean strings. -/
def pyStrLe (a b : String) : Bool := strLeB a.toList b.toList

/-! Stable sorting. Python's `list.sort(key=...)`/`sorted` is a stable
sort by a total preorder; any stable sorting algorithm computes the same
function, so it is embedded as a structurally recursive stable insertion
sort (which the kernel can evaluate on concrete inputs). -/

/-- Insert `x` into `l` after every element strictly below it, before
the first element not strictly below it (stable insertion). -/
def insSorted (le : α → α → Bool) (x : α) : List α → List α
  | [] => [x]
  | y :: ys => if le y x && !le x y then y :: insSorted le x ys else x :: y :: ys

/-- Stable sort by the boolean total preorder `le`; extensionally equal
to Python's stable `sort`. -/
def stableSort (le : α → α → Bool) : List α → List α
  | [] => []
  | x :: xs => insSorted le x (stableSort le xs)

/-- Decimal value of an ASCII digit character. -/
def digitVal (c : Char) : Nat := c.toNat - 48

/-- Read exactly one decimal digit. -/
def readD1 : List Char → Option (Nat × List Char)
  | c :: cs => if c.isDigit then some (digitVal c, cs) else none
  | [] => none

/-- Read exactly two decimal digits. -/
def readD2 : List Char → Option (Nat × List Char)
  | a :: b :: cs =>
    if a.isDigit && b.isDigit then some (digitVal a * 10 + digitVal b, cs) else none
  | _ => none

/-- Read exactly four decimal digits (the `%Y` directive of CPython's
strptime matches a fixed `\d\d\d\d`). -/
def readD4 : List Char → Option (Nat × List Char)
  | a :: b :: c :: d :: cs =>
    if a.isDigit && b.isDigit && c.isDigit && d.isDigit then
      some (((digitVal a * 10 + digitVal b) * 10 + digitVal c) * 10 + digitVal d, cs)
    else none
  | _ => none

/-- The `%d` directive (`3[01]|[12]\d|0[1-9]|[1-9]`): a two-digit day
01–31, else a single nonzero digit. -/
def readDay (cs : List Char) : Option (Nat × List Char) :=
  match readD2 cs with
  | some (v, rest) => if 1 ≤ v && v ≤ 31 then some (v, rest) else readSingleNonzero cs
  | none => readSingleNonzero cs
where
  readSingleNonzero (cs : List Char) : Option (Nat × List Char) :=
    match readD1 cs with
    | some (v, rest) => if 1 ≤ v then some (v, rest) else none
    | none => none

/-- The `%m` directive (`1[0-2]|0[1-9]|[1-9]`). -/
def readMonth (cs : List Char) : Option (Nat × List Char) :=
  match readD2 cs with
  | some (v, rest) => if 1 ≤ v && v ≤ 12 then some (v, rest) else readDay.readSingleNonzero cs
  | none => readDay.readSingleNonzero cs

/-- The `%H` directive (`2[0-3]|[0-1]\d|\d`). -/
def readHour (cs : List Char) : Option (Nat × List Char) :=
  match readD2 cs with
  | some (v, rest) => if v ≤ 23 then some (v, rest) else readD1 cs
  | none => readD1 cs

/-- The `%M` directive (`[0-5]\d|\d`). -/
def readMin (cs : List Char) : Option (Nat × List Char) :=
  match readD2 cs with
  | some (v, rest) => if v ≤ 59 then some (v, rest) else readD1 cs
  | none => readD1 cs

/-- The `%S` directive (`6[0-1]|[0-5]\d|\d`); values 60–61 pass the
regex but are rejected by the `datetime` constructor downstream. -/
def readSec (cs : List Char) : Option (Nat × List Char) :=
  match readD2 cs with
  | some (v, rest) => if v ≤ 61 then some (v, rest) else readD1 cs
  | none => readD1 cs

/-- Match one literal character. -/
def readLit (ch : Char) : List Char → Option (List Char)
  | c :: cs => if c == ch then some cs else none
  | [] => none

/-- Whitespace in a strptime format string matches `\s+`: one or more
whitespace characters. -/
def readWs : List Char → Option (List Char)
  | c :: cs =>
    if c.isWhitespace then
      some (readWsRest cs)
    else none
  | [] => none
where
  readWsRest : List Char → List Char
    | c :: cs => if c.isWhitespace then readWsRest cs else c :: cs
    | [] => []

/-- The candidate formats of `DT_PARSE_ORDER` in medqc_timeline.py. -/
inductive Fmt
  | dmyHMS  -- "%d.%m.%Y %H:%M:%S"
  | dmyHM   -- "%d.%m.%Y %H:%M"
  | dmy     -- "%d.%m.%Y"
  | ymdHMS  -- "%Y-%m-%d %H:%M:%S"
  | ymdHM   -- "%Y-%m-%d %H:%M"
  | ymd     -- "%Y-%m-%d"
  | hms     -- "%H:%M:%S"
  | hm      -- "%H:%M"
deriving DecidableEq, Repr

/-- Order of parse attempts (`DT_PARSE_ORDER` in medqc_timeline.py). -/
def DT_PARSE_ORDER : List Fmt :=
  [.dmyHMS, .dmyHM, .dmy, .ymdHMS, .ymdHM, .ymd, .hms, .hm]

/-- Read the date part `DD.MM.YYYY`. -/
def readDateDMY (cs : List Char) : Option (Nat × Nat × Nat × List Char) := do
  let (d, cs) ← readDay cs
  let cs ← readLit '.' cs
  let (m, cs) ← readMonth cs
  let cs ← readLit '.' cs
  let (y, cs) ← readD4 cs
  pure (y, m, d, cs)

/-- Read the date part `YYYY-MM-DD` of the strptime formats (month and
day accept one or two digits, as the `%m`/`%d` directives do). -/
def readDateYMD (cs : List Char) : Option (Nat × Nat × Nat × List Char) := do
  let (y, cs) ← readD4 cs
  let cs ← readLit '-' cs
  let (m, cs) ← readMonth cs
  let cs ← readLit '-' cs
  let (d, cs) ← readDay cs
  pure (y, m, d, cs)

/-- Read a time part `HH:MM` (strptime directives `%H:%M`). -/
def readTimeHM (cs : List Char) : Option (Nat × Nat × List Char) := do
  let (h, cs) ← readHour cs
  let cs ← readLit ':' cs
  let (mi, cs) ← readMin cs
  pure (h, mi, cs)

/-- Read a time part `HH:MM:SS`. -/
def readTimeHMS (cs : List Char) : Option (Nat × Nat × Nat × List Char) := do
  let (h, mi, cs) ← readTimeHM cs
  let cs ← readLit ':' cs
  let (s, cs) ← readSec cs
  pure (h, mi, s, cs)

/-- Embedding of `datetime.strptime(s, fmt)` for the eight formats the
repository uses; `none` models the caught `ValueError`. The whole input
must be consumed (strptime rejects unconverted trailing data), and the
resulting field values are validated by the `datetime` constructor.
Bare-time formats default the date to 1900-01-01 as strptime does. -/
def strptime (f : Fmt) (s : String) : Option PyDateTime :=
  match f with
  | .dmyHMS => do
    let (y, m, d, cs) ← readDateDMY s.toList
    let cs ← readWs cs
    let (h, mi, sec, cs) ← readTimeHMS cs
    if cs.isEmpty then mkDateTime y m d h mi sec else none
  | .dmyHM => do
    let (y, m, d, cs) ← readDateDMY s.toList
    let cs ← readWs cs
    let (h, mi, cs) ← readTimeHM cs
    if cs.isEmpty then mkDateTime y m d h mi 0 else none
  | .dmy => do
    let (y, m, d, cs) ← readDateDMY s.toList
    if cs.isEmpty then mkDateTime y m d 0 0 0 else none
  | .ymdHMS => do
    let (y, m, d, cs) ← readDateYMD s.toList
    let cs ← readWs cs
    let (h, mi, sec, cs) ← readTimeHMS cs
    if cs.isEmpty then mkDateTime y m d h mi sec else none
  | .ymdHM => do
    let (y, m, d, cs) ← readDateYMD s.toList
    let cs ← readWs cs
    let (h, mi, cs) ← readTimeHM cs
    if cs.isEmpty then mkDateTime y m d h mi 0 else none
  | .ymd => do
    let (y, m, d, cs) ← readDateYMD s.toList
    if cs.isEmpty then mkDateTime y m d 0 0 0 else none
  | .hms => do
    let (h, mi, sec, cs) ← readTimeHMS s.toList
    if cs.isEmpty then mkDateTime 1900 1 1 h mi sec else none
  | .hm => do
    let (h, mi, cs) ← readTimeHM s.toList
    if cs.isEmpty then mkDateTime 1900 1 1 h mi 0 else none

/-- Loop body of `parse_dt_any`: try each format in order, first
success wins. -/
def tryFormats (s : String) : List Fmt → Option PyDateTime
  | [] => none
  | f :: fs =>
    match strptime f s with
    | some d => some d
    | none => tryFormats s fs

/-- Embedding of `parse_dt_any` (medqc_timeline.py): strip the input,
then try the formats of `DT_PARSE_ORDER` in order; `none` on no match. -/
def parse_dt_any (s : String) : Option PyDateTime :=
  tryFormats (pyStrip s) DT_PARSE_ORDER

/-! Embedding of `parse_iso_any` (medqc_rules.py) via a model of
`datetime.fromisoformat` on the naive ISO strings this repository
produces (no timezone offsets, no fractional seconds). -/

/-- Model of `datetime.fromisoformat` for naive ISO strings
`YYYY-MM-DD[<sep>HH:MM[:SS]]` (any single separator character, as in
CPython before 3.11); `none` models the raised `ValueError`. -/
def fromisoformat (cs : List Char) : Option PyDateTime := do
  let (y, cs) ← readD4 cs
  let cs ← readLit '-' cs
  let (m, cs) ← readD2 cs
  let cs ← readLit '-' cs
  let (d, cs) ← readD2 cs
  match cs with
  | [] => mkDateTime y m d 0 0 0
  | _sep :: cs1 => do
    let (hh, cs1) ← readD2 cs1
    let cs1 ← readLit ':' cs1
    let (mi, cs1) ← readD2 cs1
    match cs1 with
    | [] => mkDateTime y m d hh mi 0
    | _ => do
      let cs1 ← readLit ':' cs1
      let (ss, cs1) ← readD2 cs1
      if cs1.isEmpty then mkDateTime y m d hh mi ss else none

/-- Embedding of `parse_iso_any` (medqc_rules.py): `None`/empty input is
falsy and yields `None`; otherwise every `Z`/`z` is removed and the rest
goes through `datetime.fromisoformat`, with errors caught to `None`. -/
def parse_iso_any (s : Option String) : Option PyDateTime :=
  match s with
  | none => none
  | some t =>
    if t = "" then none
    else fromisoformat ((t.toList.filter (fun c => c != 'Z')).filter (fun c => c != 'z'))

/-- Python's `x or y` on optional strings: `None` and `""` are falsy. -/
def pyOr (a b : Option String) : Option String :=
  match a with
  | some s => if s = "" then b else some s
  | none => b

/-- Python's `x or d` with a string default. -/
def pyOrD (a : Option String) (d : String) : String :=
  match a with
  | some s => if s = "" then d else s
  | none => d

/-- Python's `int()` on the digit strings produced by splitting dates;
`none` models the `ValueError` on empty/non-digit input. -/
def strToNatQ (cs : List Char) : Option Nat :=
  if cs.isEmpty then none
  else if cs.all Char.isDigit then some (cs.foldl (fun acc c => acc * 10 + digitVal c) 0)
  else none

/-- Match of `re.match(r"^(\d{1,2}):(\d{2})", t)` used by `to_iso`:
an anchored prefix match, trailing characters allowed. -/
def timeHMAtStart (cs : List Char) : Option (Nat × Nat) := do
  let (h, cs) ←
    match readD2 cs with
    | some (v, rest) =>
      match readLit ':' rest with
      | some rest1 => some (v, rest1)
      | none => do
        let (v1, rest1) ← readD1 cs
        let rest2 ← readLit ':' rest1
        pure (v1, rest2)
    | none => do
      let (v1, rest1) ← readD1 cs
      let rest2 ← readLit ':' rest1
      pure (v1, rest2)
  let (m, _) ← readD2 cs
  pure (h, m)

/-- Embedding of `to_iso` (medqc_entities.py): normalize `/` and `-`
separators to `.`, split, normalize a 2-digit year to `20YY`, zero-pad
day/month, take `HH:MM` from the start of the optional time string, and
build a validated `datetime`, returning its `isoformat()` string. -/
def to_iso (date_s : String) (time_s : Option String) : Option String :=
  if date_s = "" then none
  else
    let ds := (pyStrip date_s).toList.map (fun c => if c == '/' || c == '-' then '.' else c)
    let parts := ds.splitOn '.'
    if parts.length < 3 then none
    else
      let d0 := parts.getD 0 []
      let m0 := parts.getD 1 []
      let y0 := parts.getD 2 []
      let y1 := if y0.length == 2 then '2' :: '0' :: y0 else y0
      let d1 := if d0.length == 1 then '0' :: d0 else d0
      let m1 := if m0.length == 1 then '0' :: m0 else m0
      let t :=
        match time_s with
        | none => none
        | some ts => if ts = "" then none else timeHMAtStart (pyStrip ts).toList
      let hh := match t with | some (h, _) => h | none => 0
      let mm := match t with | some (_, m) => m | none => 0
      match strToNatQ y1, strToNatQ m1, strToNatQ d1 with
      | some yv, some mv, some dv =>
        (mkDateTime yv mv dv hh mm 0).map PyDateTime.isoSeconds
      | _, _, _ => none

/-! Embedding of the `DT_RE` regex of medqc_timeline.py:
`\b((?:\d{2}[.]){2}\d{4}(?:\s+\d{1,2}:\d{2}(?::\d{2})?)?` `|`
`\d{4}-\d{2}-\d{2}(?:\s+\d{1,2}:\d{2}(?::\d{2})?)?` `|`
`\d{1,2}:\d{2}(?::\d{2})?)\b` with `finditer` semantics: leftmost,
non-overlapping, ordered alternation with backtracking on the optional
time group, and word boundaries on both sides. -/

/-- Word characters for `\b` (ASCII alphanumerics, underscore, and the
Cyrillic block used by this repository's documents). -/
def isWordChar (c : Char) : Bool :=
  c.isAlphanum || c == '_' || (0x400 ≤ c.toNat && c.toNat ≤ 0x4FF)

/-- Maximal run of 1+ whitespace characters (`\s+`). -/
def takeWs : List Char → Option (List Char × List Char)
  | c :: cs =>
    if c.isWhitespace then
      let rest := cs.dropWhile Char.isWhitespace
      some (c :: cs.takeWhile Char.isWhitespace, rest)
    else none
  | [] => none

/-- Candidates for `\d{1,2}` in backtracking order (greedy two digits
first, then one). -/
def digits12 : List Char → List (List Char × List Char)
  | a :: b :: r =>
    (if a.isDigit && b.isDigit then [([a, b], r)] else []) ++
      (if a.isDigit then [([a], b :: r)] else [])
  | [a] => if a.isDigit then [([a], [])] else []
  | [] => []

/-- Exactly two digits. -/
def digits2 : List Char → Option (List Char × List Char)
  | a :: b :: r => if a.isDigit && b.isDigit then some ([a, b], r) else none
  | _ => none

/-- Exactly four digits. -/
def digits4 : List Char → Option (List Char × List Char)
  | a :: b :: c :: d :: r =>
    if a.isDigit && b.isDigit && c.isDigit && d.isDigit then some ([a, b, c, d], r) else none
  | _ => none

/-- Candidates for the optional seconds `(?::\d{2})?`: with seconds
first (greedy), then without. -/
def optSeconds (consumed : List Char) (cs : List Char) : List (List Char × List Char) :=
  (match cs with
   | ':' :: c1 :: c2 :: r =>
     if c1.isDigit && c2.isDigit then [(consumed ++ [':', c1, c2], r)] else []
   | _ => []) ++ [(consumed, cs)]

/-- Candidates for `\d{1,2}:\d{2}(?::\d{2})?` in backtracking order. -/
def timeCore (cs : List Char) : List (List Char × List Char) :=
  (digits12 cs).flatMap (fun (hd, cs1) =>
    match cs1 with
    | ':' :: cs2 =>
      match digits2 cs2 with
      | some (mn, cs3) => optSeconds (hd ++ ':' :: mn) cs3
      | none => []
    | _ => [])

/-- Candidates for the optional time tail `(?:\s+\d{1,2}:\d{2}(?::\d{2})?)?`:
present (in backtracking order) first, then absent. -/
def optTimeTail (consumed : List Char) (cs : List Char) : List (List Char × List Char) :=
  (match takeWs cs with
   | some (ws, cs1) => (timeCore cs1).map (fun (t, r) => (consumed ++ ws ++ t, r))
   | none => []) ++ [(consumed, cs)]

/-- Alternation candidates of `DT_RE` at the current position, in the
order the regex engine explores them. -/
def dtAltCands (cs : List Char) : List (List Char × List Char) :=
  (match digits2 cs with
   | some (d1, r1) =>
     (match r1 with
      | '.' :: r2 =>
        (match digits2 r2 with
         | some (d2, r3) =>
           (match r3 with
            | '.' :: r4 =>
              (match digits4 r4 with
               | some (y, r5) => optTimeTail (d1 ++ '.' :: d2 ++ '.' :: y) r5
               | none => [])
            | _ => [])
         | none => [])
      | _ => [])
   | none => []) ++
  (match digits4 cs with
   | some (y, r1) =>
     (match r1 with
      | '-' :: r2 =>
        (match digits2 r2 with
         | some (m, r3) =>
           (match r3 with
            | '-' :: r4 =>
              (match digits2 r4 with
               | some (d, r5) => optTimeTail (y ++ '-' :: m ++ '-' :: d) r5
               | none => [])
            | _ => [])
         | none => [])
      | _ => [])
   | none => []) ++
  timeCore cs

/-- Trailing `\b`: the next character must not be a word character. -/
def boundaryOk : List Char → Bool
  | [] => true
  | c :: _ => !isWordChar c

/-- First alternation candidate that also satisfies the trailing word
boundary. -/
def dtMatchAt (cs : List Char) : Option (List Char × List Char) :=
  (dtAltCands cs).find? (fun (_, rest) => boundaryOk rest)

/-- Fueled scan implementing `DT_RE.finditer`: leftmost matches,
non-overlapping, with the leading word boundary tracked via the
previous character. Produces `(start, end, matched-string)` triples.
The fuel only needs to exceed the text length. -/
def dtFindAux : Nat → Bool → List Char → Nat → List (Nat × Nat × String)
  | 0, _, _, _ => []
  | _ + 1, _, [], _ => []
  | fuel + 1, prevWord, c :: cs, pos =>
    if prevWord then dtFindAux fuel (isWordChar c) cs (pos + 1)
    else
      match dtMatchAt (c :: cs) with
      | some (m, rest) =>
        if m.isEmpty then dtFindAux fuel (isWordChar c) cs (pos + 1)
        else
          (pos, pos + m.length, m.asString) ::
            dtFindAux fuel (isWordChar (m.getLastD ' ')) rest (pos + m.length)
      | none => dtFindAux fuel (isWordChar c) cs (pos + 1)

/-- All `DT_RE` matches in a text (`DT_RE.finditer`). -/
def dtFinditer (cs : List Char) : List (Nat × Nat × String) :=
  dtFindAux (cs.length + 1) false cs 0

/-- Python slice `full[a:b]`. -/
def slice (cs : List Char) (a b : Nat) : List Char :=
  (cs.drop a).take (b - a)

/-- Loop body of `pick_section_timestamp`: first `DT_RE` match inside
the chunk that `parse_dt_any` accepts, rendered at minute precision. -/
def firstParsedDt : List (Nat × Nat × String) → Option String
  | [] => none
  | (_, _, s) :: rest =>
    match parse_dt_any s with
    | some dt => some dt.isoMinutes
    | none => firstParsedDt rest

/-- Embedding of `pick_section_timestamp` (medqc_timeline.py). -/
def pick_section_timestamp (full : List Char) (a b : Nat) : Option String :=
  firstParsedDt (dtFinditer (slice full a b))

/-! Timeline builder (`build_timeline`, medqc_timeline.py). The opaque
JSON payloads (`value`) play no role in ordering or deduplication and
are not modelled. -/

/-- Section row as the timeline builder reads it. -/
structure TSection where
  section_id : Nat
  kind : String
  start : Nat
  endPos : Nat
deriving DecidableEq, Repr

/-- Entity row as the timeline builder reads it. -/
structure TEntity where
  etype : String
  section_id : Option Nat
  start : Nat
  endPos : Nat
deriving DecidableEq, Repr

/-- Document row fields the timeline builder uses. -/
structure TDoc where
  admit_dt : Option String
deriving DecidableEq, Repr

/-- Canonical event produced by the timeline builder. -/
structure TEvent where
  kind : String
  when : Option String
  section_id : Option Nat
  start : Option Nat
  endPos : Option Nat
deriving DecidableEq, Repr

/-- `SECTION_EVENT_MAP.get`: the map sends each of the six known section
kinds to itself. -/
def sectionEventMap (k : String) : Option String :=
  if k == "admit" || k == "triage" || k == "initial_exam" || k == "daily_note"
      || k == "ecg" || k == "epicrisis" then some k
  else none

/-- Step 1 of `build_timeline`: one event per section whose kind maps to
an event kind; the instant is the first parsed timestamp in the section
span, falling back to the document's `admit_dt` for `admit` sections. -/
def sectionEvents (doc : TDoc) (full : List Char) (sections : List TSection) : List TEvent :=
  sections.filterMap (fun s =>
    match sectionEventMap s.kind with
    | none => none
    | some kind =>
      let iso := pyOr (pick_section_timestamp full s.start s.endPos)
        (if kind == "admit" then doc.admit_dt else none)
      some ⟨kind, iso, some s.section_id, some s.start, some s.endPos⟩)

/-- The per-section `DT_RE` index (`section_dt_list`): all parsed
timestamps in a section with their absolute offsets. -/
def sectionDts (full : List Char) (s : TSection) : List (Nat × Nat × String) :=
  (dtFinditer (slice full s.start s.endPos)).filterMap (fun t =>
    (parse_dt_any t.2.2).map (fun dt => (s.start + t.1, s.start + t.2.1, dt.isoMinutes)))

/-- Association list form of `section_dt_list`. -/
def secDtAssoc (full : List Char) (sections : List TSection) :
    List (Nat × List (Nat × Nat × String)) :=
  sections.map (fun s => (s.section_id, sectionDts full s))

/-- Dictionary lookup on the section index. -/
def lookupDts (assoc : List (Nat × List (Nat × Nat × String))) (sid : Nat) :
    Option (List (Nat × Nat × String)) :=
  (assoc.find? (fun p => p.1 == sid)).map (fun p => p.2)

/-- Timestamp for a diagnosis event: first timestamp of its section if
any, else the document's `admit_dt`. -/
def diagTs (assoc : List (Nat × List (Nat × Nat × String))) (doc : TDoc)
    (sid : Option Nat) : Option String :=
  match sid with
  | some id =>
    match lookupDts assoc id with
    | some (first :: _) => some first.2.2
    | _ => doc.admit_dt
  | none => doc.admit_dt

/-- Embedding of `nearest_dt_iso`: nearest in-section timestamp by
absolute offset distance, first one winning ties (`min` semantics); a
falsy section id (None or 0) yields `None`. -/
def nearest_dt_iso (assoc : List (Nat × List (Nat × Nat × String)))
    (sid : Option Nat) (pos : Nat) : Option String :=
  match sid with
  | none => none
  | some 0 => none
  | some id =>
    match lookupDts assoc id with
    | some (c :: cands) =>
      some (cands.foldl (fun best cand =>
        if ((cand.1 : Int) - pos).natAbs < ((best.1 : Int) - pos).natAbs then cand else best)
        c).2.2
    | _ => none

/-- Steps 2–4 of `build_timeline`: diagnosis, medication and vital
events derived from entities. -/
def entityEvents (doc : TDoc) (assoc : List (Nat × List (Nat × Nat × String)))
    (ents : List TEntity) : List TEvent :=
  (ents.filter (fun e => e.etype == "diagnosis")).map (fun e =>
    ⟨"diagnosis", diagTs assoc doc e.section_id, e.section_id, some e.start, some e.endPos⟩) ++
  (ents.filter (fun e => e.etype == "medication")).map (fun e =>
    ⟨"medication", nearest_dt_iso assoc e.section_id e.start, e.section_id,
      some e.start, some e.endPos⟩) ++
  (ents.filter (fun e => e.etype == "vital")).map (fun e =>
    ⟨"vital", nearest_dt_iso assoc e.section_id e.start, e.section_id,
      some e.start, some e.endPos⟩)

/-- The `sort_key` of `build_timeline`:
`(ev.get("when") is None, ev.get("when") or "9999-12-31T00:00")`. -/
def sortKey (ev : TEvent) : Bool × List Char :=
  (ev.when.isNone, (pyOrD ev.when "9999-12-31T00:00").toList)

/-- Lexicographic order on the sort key, exactly Python's tuple order:
`False < True` on the first component, code-point order on the second. -/
def keyLe (a b : TEvent) : Bool :=
  let k1 := sortKey a
  let k2 := sortKey b
  (!k1.1 && k2.1) || (k1.1 == k2.1 && strLeB k1.2 k2.2)

/-- Python's stable `events.sort(key=sort_key)`. -/
def sortTimelineEvents (evs : List TEvent) : List TEvent :=
  stableSort keyLe evs

/-- Embedding of the event-construction part of `build_timeline`:
section events, then entity-derived events, sorted by the sort key with
a stable sort. -/
def build_timeline_events (doc : TDoc) (full : List Char) (sections : List TSection)
    (ents : List TEntity) : List TEvent :=
  sortTimelineEvents
    (sectionEvents doc full sections ++ entityEvents doc (secDtAssoc full sections) ents)

/-! Entity extraction stage (medqc_entities.py): the `daily_note`
deduplication loop of `run_entities`. A signal is one match of
`extract_daily_notes` — `(span, optional parsed timestamp, payload)`;
the payload is opaque and the span start identifies the signal. -/

/-- One `extract_daily_notes` signal. -/
structure DNSignal where
  pos : Nat
  ts : Option String
deriving DecidableEq, Repr

/-- Python's `ts.split("T", 1)[0]`: the calendar-day part of an ISO
timestamp. -/
def dateKey (s : String) : String :=
  (s.toList.takeWhile (fun c => c != 'T')).asString

/-- The `daily_note` insertion loop of `run_entities` (lines 254–262):
a signal with a parsed timestamp is inserted only if its calendar day
was not seen before; a signal without a timestamp is always inserted
and never marks a day as seen. -/
def dedupDailyNotes (seen : List String) : List DNSignal → List DNSignal
  | [] => []
  | sig :: rest =>
    match sig.ts with
    | some t =>
      let d := dateKey t
      if seen.contains d then dedupDailyNotes seen rest
      else sig :: dedupDailyNotes (d :: seen) rest
    | none => sig :: dedupDailyNotes seen rest

/-- The `daily_note` events actually inserted by one `run_entities` run. -/
def run_entities_daily_notes (sigs : List DNSignal) : List DNSignal :=
  dedupDailyNotes [] sigs

/-- Predicate: a signal parsed to calendar day `d`. -/
def dayIs (d : String) (s : DNSignal) : Bool :=
  match s.ts with
  | some t => dateKey t == d
  | none => false

/-! Profile inference (`infer_profiles`, medqc_rules.py). -/


/-- Document row fields `infer_profiles` reads. -/
structure PDoc where
  dept : Option String
  department : Option String
deriving DecidableEq, Repr

/-- Entity row as `run_rules` passes it to `infer_profiles` (the etype
is normalized; the value payload is opaque and unused there). -/
structure PEntity where
  etype : String
deriving DecidableEq, Repr

/-- Event row as `run_rules` passes it (kind normalized by
`_normalize_kind`; timestamp under `ts`, legacy key `when`). -/
structure PEvent where
  kind : String
  ts : Option String
  when : Option String
deriving DecidableEq, Repr

/-- Python's `str(x)` on an optional string: `None` prints as "None". -/
def pyStr (s : Option String) : String :=
  match s with
  | some t => t
  | none => "None"

/-- Python's `str.lower()` on the alphabets this repository uses
(ASCII and Cyrillic). -/
def pyLowerChar (c : Char) : Char :=
  if c.toNat ≥ 65 && c.toNat ≤ 90 then Char.ofNat (c.toNat + 32)
  else if c.toNat ≥ 0x410 && c.toNat ≤ 0x42F then Char.ofNat (c.toNat + 0x20)
  else if c.toNat == 0x401 then Char.ofNat 0x451
  else c

/-- Python's `str.lower()`. -/
def pyLower (s : String) : String :=
  (s.toList.map pyLowerChar).asString

/-- Prefix test on character lists. -/
def leadsWith : List Char → List Char → Bool
  | [], _ => true
  | _ :: _, [] => false
  | a :: as, b :: bs => a == b && leadsWith as bs

/-- Contiguous-substring test on character lists. -/
def containsSubL (needle : List Char) : List Char → Bool
  | [] => needle.isEmpty
  | c :: cs => leadsWith needle (c :: cs) || containsSubL needle cs

/-- Python's `needle in hay` substring test. -/
def containsSub (hay needle : String) : Bool :=
  containsSubL needle.toList hay.toList

/-- Set insertion, modelling `profiles.add(p)`. -/
def insertProf (l : List String) (p : String) : List String :=
  if l.contains p then l else l ++ [p]

/-- Python's `sorted` on strings. -/
def sortStrings (l : List String) : List String :=
  stableSort (fun a b => strLeB a.toList b.toList) l

/-- The department-keyword table of `infer_profiles`, in insertion
(= iteration) order. -/
def deptProfileMap : List (String × String) :=
  [("инфек", "INF"), ("педиатр", "PED"), ("кардиол", "CAR"),
   ("нейрохир", "NEUROSURG"), ("нейро", "NEURO"), ("нефро", "NEPH"),
   ("пульмон", "PUL"), ("ревмат", "RHEUM"), ("уролог", "URO"),
   ("гастро", "GIH"), ("гепат", "GIH"), ("онко", "ONC"),
   ("акуш", "OBG"), ("гинек", "OBG"), ("травм", "TRAUMA"),
   ("хирург", "SURG"), ("неонат", "NEO"), ("дневн", "DAY")]

/-- Last parsed timestamp of events of kind `k` (the source loops with
plain assignment, so the last matching event wins). -/
def lastTs (events : List PEvent) (k : String) : Option PyDateTime :=
  events.foldl (fun acc e => if e.kind == k then parse_iso_any (pyOr e.ts e.when) else acc) none

/-- Event-derived part of the profile set of `infer_profiles`: `ER` on
any triage event, `DAY` when admit and discharge parse to the same
calendar date, and always the baseline `STA`. -/
def profilesBase (events : List PEvent) : List String :=
  let kinds := events.map (fun e => e.kind)
  let p1 := if kinds.contains "triage" then insertProf [] "ER" else []
  let admit_ts := lastTs events "admit"
  let discharge_ts := lastTs events "discharge"
  let p2 :=
    match admit_ts, discharge_ts with
    | some a, some d => if a.date = d.date then insertProf p1 "DAY" else p1
    | _, _ => p1
  insertProf p2 "STA"

/-- The lowercased department string `infer_profiles` matches against:
`(doc.get("dept") or doc.get("department") or "").lower()`. -/
def deptLower (doc : PDoc) : String :=
  pyLower (pyOrD (pyOr doc.dept doc.department) "")

/-- Department-keyword pass of `infer_profiles` over its keyword table. -/
def profilesWithDept (doc : PDoc) (events : List PEvent) : List String :=
  deptProfileMap.foldl
    (fun acc kp => if containsSub (deptLower doc) kp.1 then insertProf acc kp.2 else acc)
    (profilesBase events)

/-- Embedding of `infer_profiles` (medqc_rules.py): the sorted set of
event-derived and department-derived profiles. The `entities` argument
is accepted but never read, exactly as in the source. -/
def infer_profiles (doc : PDoc) (_entities : List PEntity) (events : List PEvent) :
    List String :=
  sortStrings (profilesWithDept doc events)

/-! Rule catalog (`load_active_rules`, medqc_rules.py). The SQL query is
embedded as a filter over the two tables; a rule row carries exactly the
columns the query references. (The named-package branch references
`package_name`/`package_version` columns that the repository's own
schema files do not create; they are modelled as nullable fields.) -/

/-- Row of `norm_rules` with the columns `load_active_rules` uses. -/
structure NormRule where
  rule_id : String
  pkg_id : Nat
  package_name : Option String
  package_version : Option String
  profile : String
  severity : Option String
  enabled : Bool
  effective_from : Option String
  effective_to : Option String
deriving DecidableEq, Repr

/-- Row of `norm_packages` with the columns the queries use. -/
structure NormPackage where
  pkg_id : Nat
  name : String
  version : String
  active : Bool
deriving DecidableEq, Repr

/-- `ORDER BY r.rule_id` (SQLite BINARY collation = code-point order). -/
def sortByRuleId (l : List NormRule) : List NormRule :=
  stableSort (fun a b => strLeB a.rule_id.toList b.rule_id.toList) l

/-- The default branch of `load_active_rules`: enabled rules of the
active package whose profile is in the inferred set. -/
def activePkgRules (rules : List NormRule) (pkgs : List NormPackage)
    (profs : List String) : List NormRule :=
  sortByRuleId (rules.filter (fun r =>
    r.enabled && pkgs.any (fun p => p.pkg_id == r.pkg_id && p.active)
      && profs.contains r.profile))

/-- Embedding of `load_active_rules` (medqc_rules.py): with a truthy
package name AND version, filter to enabled rules of that package (by
denormalized name/version columns or via `norm_packages`) with a
matching profile; otherwise filter to enabled rules of the active
package. An empty profile list queries for the single profile "STA".
No condition mentions `effective_from`/`effective_to`. -/
def load_active_rules (rules : List NormRule) (pkgs : List NormPackage)
    (profiles : List String) (package_name package_version : Option String) :
    List NormRule :=
  let profs := if profiles.isEmpty then ["STA"] else profiles
  match package_name, package_version with
  | some pn, some pv =>
    if pn == "" || pv == "" then activePkgRules rules pkgs profs
    else
      sortByRuleId (rules.filter (fun r =>
        r.enabled
          && profs.contains r.profile
          && ((r.package_name == some pn && r.package_version == some pv)
            || pkgs.any (fun p => p.name == pn && p.version == pv && p.pkg_id == r.pkg_id))))
  | _, _ => activePkgRules rules pkgs profs

/-- Definition following the SPEC's words (§4.5), for comparison with
the embedded query: "Effective-date filtering excludes rules whose
`[effective_from, effective_to]` window excludes now" — open bounds
pass, ISO strings compare chronologically. -/
def specEffectiveWindowIncludes (now : String) (r : NormRule) : Bool :=
  (match r.effective_from with
   | none => true
   | some f => strLeB f.toList now.toList) &&
  (match r.effective_to with
   | none => true
   | some t => strLeB now.toList t.toList)

/-! Rule evaluation loop of `run_rules` (medqc_rules.py) and the
violations store. The store is the `violations` table restricted to the
inserted columns; `run_rules` only ever INSERTs into it. -/

/-- Row of the `violations` table as `insert_violation` writes it. -/
structure StoredViolation where
  doc_id : String
  rule_id : String
  severity : String
  message : String
  src_rule : String
deriving DecidableEq, Repr

/-- Outcome of looking up and invoking one rule implementation:
`none` models a rule id absent from `RULE_IMPL` (skipped silently),
`Except.error` models the implementation raising, `Except.ok` the
returned violation-tuple list. -/
def RuleOutcome := Option (Except String (List (String × String × String)))

/-- Violations the `run_rules` loop body inserts for one catalog rule:
nothing when no implementation is registered; the returned tuples when
the implementation succeeds; exactly one "rule execution error"
violation whose severity is `str(r.get("severity","minor"))` when it
raises. The severity key is always present in a `norm_rules` row, so
the "minor" dict-default is dead code and a NULL severity prints as
"None". -/
def ruleContrib (impls : String → RuleOutcome) (docId : String) (r : NormRule) :
    List StoredViolation :=
  match impls r.rule_id with
  | none => []
  | some (Except.ok vlist) =>
    vlist.map (fun v => ⟨docId, v.1, v.2.1, v.2.2, r.rule_id⟩)
  | some (Except.error ex) =>
    [⟨docId, r.rule_id, pyStr r.severity, "Ошибка исполнения правила: " ++ ex, r.rule_id⟩]

/-- All violations one `run_rules` run produces, in loop order. -/
def run_rules_violations (impls : String → RuleOutcome) (docId : String)
    (rules : List NormRule) : List StoredViolation :=
  rules.flatMap (ruleContrib impls docId)

/-- Effect of one `run_rules` run on the `violations` table: the run
only INSERTs (there is no DELETE of prior rows for the document
anywhere in the repository), committed in one transaction. -/
def run_rules_store (store : List StoredViolation) (impls : String → RuleOutcome)
    (docId : String) (rules : List NormRule) : List StoredViolation :=
  store ++ run_rules_violations impls docId rules

/-! `rule_STA_001` (medqc_rules.py): daily-coverage rule. -/

/-- Embedding of `rule_STA_001`: last admit/discharge timestamps win;
no violation without both or within a single day; otherwise one
violation listing (up to five of) the dates in the inclusive
`[admit.date, discharge.date]` range that have no parsed `daily_note`. -/
def rule_STA_001 (events : List PEvent) : List (String × String × String) :=
  let admitTs := lastTs events "admit"
  let dischargeTs := lastTs events "discharge"
  match admitTs, dischargeTs with
  | some a, some d =>
    let days : Int := (d.date.toOrdinal : Int) - (a.date.toOrdinal : Int) + 1
    if days ≤ 1 then []
    else
      let notes := (events.filter (fun e => e.kind == "daily_note")).filterMap
        (fun e => (parse_iso_any (pyOr e.ts e.when)).map PyDateTime.date)
      let missing := (List.range days.toNat).filterMap (fun i =>
        let dd := a.date.addDays i
        if notes.contains dd then none else some dd.iso)
      if missing.isEmpty then []
      else
        [("STA-001", "major",
          "Нет ежедневных записей за дни: " ++ String.intercalate ", " (missing.take 5)
            ++ (if missing.length > 5 then " ..." else ""))]
  | _, _ => []

theorem insSorted_perm (le : α → α → Bool) (x : α) :
    ∀ l : List α, List.Perm (insSorted le x l) (x :: l) := by
  intro l
  induction l with
  | nil => simp [insSorted]
  | cons y ys ih =>
    simp only [insSorted]
    split
    · exact (ih.cons y).trans (List.Perm.swap x y ys)
    · exact List.Perm.refl _

theorem stableSort_perm (le : α → α → Bool) :
    ∀ l : List α, List.Perm (stableSort le l) l := by
  intro l
  induction l with
  | nil => simp [stableSort]
  | cons x xs ih =>
    exact (insSorted_perm le x (stableSort le xs)).trans (ih.cons x)

theorem insSorted_pairwise (le : α → α → Bool)
    (trans : ∀ a b c, le a b = true → le b c = true → le a c = true)
    (total : ∀ a b, le a b = true ∨ le b a = true) (x : α) :
    ∀ l : List α, l.Pairwise (fun a b => le a b = true) →
      (insSorted le x l).Pairwise (fun a b => le a b = true) := by
  intro l
  induction l with
  | nil => intro _; simp [insSorted]
  | cons y ys ih =>
    intro hp
    rcases List.pairwise_cons.mp hp with ⟨hy, hys⟩
    simp only [insSorted]
    split
    · rename_i hcond
      have hyx : le y x = true := by
        cases h1 : le y x <;> simp [h1] at hcond ⊢
      refine List.pairwise_cons.mpr ⟨?_, ih hys⟩
      intro z hz
      have hz2 : z ∈ x :: ys := (insSorted_perm le x ys).mem_iff.mp hz
      rcases List.mem_cons.mp hz2 with rfl | hz3
      · exact hyx
      · exact hy z hz3
    · rename_i hcond
      have hxy : le x y = true := by
        rcases total x y with h | h
        · exact h
        · cases h2 : le x y
          · simp [h, h2] at hcond
          · rfl
      refine List.pairwise_cons.mpr ⟨?_, hp⟩
      intro z hz
      rcases List.mem_cons.mp hz with rfl | hz2
      · exact hxy
      · exact trans x y z hxy (hy z hz2)

theorem stableSort_pairwise (le : α → α → Bool)
    (trans : ∀ a b c, le a b = true → le b c = true → le a c = true)
    (total : ∀ a b, le a b = true ∨ le b a = true) :
    ∀ l : List α, (stableSort le l).Pairwise (fun a b => le a b = true) := by
  intro l
  induction l with
  | nil => simp [stableSort]
  | cons x xs ih => exact insSorted_pairwise le trans total x _ ih

theorem insSorted_filter (le : α → α → Bool) (p : α → Bool)
    (hEquiv : ∀ a b, p a = true → p b = true → le a b = true) (x : α) :
    ∀ l : List α, (insSorted le x l).filter p = (x :: l).filter p := by
  intro l
  induction l with
  | nil => simp [insSorted]
  | cons y ys ih =>
    simp only [insSorted]
    split
    · rename_i hcond
      have hnotboth : ¬(p x = true ∧ p y = true) := by
        rintro ⟨hpx, hpy⟩
        have h1 := hEquiv x y hpx hpy
        simp [h1] at hcond
      cases hpx : p x with
      | true =>
        have hpy : p y = false := by
          cases hpy : p y
          · rfl
          · exact absurd ⟨hpx, hpy⟩ hnotboth
        simp [List.filter_cons, hpy, hpx, ih]
      | false =>
        simp [List.filter_cons, hpx, ih]
    · rfl

theorem stableSort_filter (le : α → α → Bool) (p : α → Bool)
    (hEquiv : ∀ a b, p a = true → p b = true → le a b = true) :
    ∀ l : List α, (stableSort le l).filter p = l.filter p := by
  intro l
  induction l with
  | nil => simp [stableSort]
  | cons x xs ih =>
    calc (insSorted le x (stableSort le xs)).filter p
        = (x :: stableSort le xs).filter p := insSorted_filter le p hEquiv x _
      _ = (x :: xs).filter p := by
          cases hpx : p x <;> simp [List.filter, hpx, ih]

theorem insSorted_of_le_head (le : α → α → Bool) (x : α) :
    ∀ l : List α, (∀ z ∈ l, le x z = true) → insSorted le x l = x :: l := by
  intro l hz
  cases l with
  | nil => rfl
  | cons y ys =>
    have : le x y = true := hz y (List.mem_cons_self y ys)
    simp [insSorted, this]

theorem stableSort_of_pairwise (le : α → α → Bool) :
    ∀ l : List α, l.Pairwise (fun a b => le a b = true) → stableSort le l = l := by
  intro l
  induction l with
  | nil => intro _; rfl
  | cons x xs ih =>
    intro hp
    rcases List.pairwise_cons.mp hp with ⟨hx, hxs⟩
    simp only [stableSort, ih hxs]
    exact insSorted_of_le_head le x xs hx

theorem stableSort_idem (le : α → α → Bool)
    (trans : ∀ a b c, le a b = true → le b c = true → le a c = true)
    (total : ∀ a b, le a b = true ∨ le b a = true) (l : List α) :
    stableSort le (stableSort le l) = stableSort le l :=
  stableSort_of_pairwise le _ (stableSort_pairwise le trans total l)

theorem strLeB_refl : ∀ as : List Char, strLeB as as = true := by
  intro as
  induction as with
  | nil => rfl
  | cons a as ih => simp [strLeB, ih]

theorem strLeB_total : ∀ as bs : List Char, strLeB as bs = true ∨ strLeB bs as = true := by
  intro as
  induction as with
  | nil => intro bs; left; simp [strLeB]
  | cons a as ih =>
    intro bs
    cases bs with
    | nil => right; simp [strLeB]
    | cons b bs =>
      simp only [strLeB]
      rcases Nat.lt_trichotomy a.toNat b.toNat with h | h | h
      · left; simp [h]
      · have h1 : ¬ a.toNat < b.toNat := by omega
        have h2 : ¬ b.toNat < a.toNat := by omega
        simpa [h1, h2] using ih bs
      · right; simp [h]

theorem strLeB_trans :
    ∀ as bs cs : List Char, strLeB as bs = true → strLeB bs cs = true →
      strLeB as cs = true := by
  intro as
  induction as with
  | nil => intros; simp [strLeB]
  | cons a as ih =>
    intro bs cs h1 h2
    cases bs with
    | nil => simp [strLeB] at h1
    | cons b bs =>
      cases cs with
      | nil => simp [strLeB] at h2
      | cons c cs =>
        simp only [strLeB] at h1 h2 ⊢
        rcases Nat.lt_trichotomy a.toNat b.toNat with hab | hab | hab <;>
          rcases Nat.lt_trichotomy b.toNat c.toNat with hbc | hbc | hbc
        · simp [Nat.lt_trans hab hbc]
        · have : a.toNat < c.toNat := by omega
          simp [this]
        · have hx1 : ¬ b.toNat < c.toNat := by omega
          simp [hx1, hbc] at h2
        · have : a.toNat < c.toNat := by omega
          simp [this]
        · have : ¬ a.toNat < c.toNat := by omega
          have h2x : ¬ c.toNat < a.toNat := by omega
          have ha1 : ¬ a.toNat < b.toNat := by omega
          have ha2 : ¬ b.toNat < a.toNat := by omega
          have hb1 : ¬ b.toNat < c.toNat := by omega
          have hb2 : ¬ c.toNat < b.toNat := by omega
          simp [ha1, ha2] at h1
          simp [hb1, hb2] at h2
          simp [this, h2x]
          exact ih bs cs h1 h2
        · have hx1 : ¬ b.toNat < c.toNat := by omega
          simp [hx1, hbc] at h2
        · have hx1 : ¬ a.toNat < b.toNat := by omega
          simp [hx1, hab] at h1
        · have hx1 : ¬ a.toNat < b.toNat := by omega
          simp [hx1, hab] at h1
        · have hx1 : ¬ a.toNat < b.toNat := by omega
          simp [hx1, hab] at h1

theorem keyLe_total : ∀ a b : TEvent, keyLe a b = true ∨ keyLe b a = true := by
  intro a b
  simp only [keyLe]
  cases h1 : (sortKey a).1 <;> cases h2 : (sortKey b).1 <;> simp
  · exact strLeB_total _ _
  · exact strLeB_total _ _

theorem keyLe_trans :
    ∀ a b c : TEvent, keyLe a b = true → keyLe b c = true → keyLe a c = true := by
  intro a b c h1 h2
  simp only [keyLe] at h1 h2 ⊢
  cases ha : (sortKey a).1 <;> cases hb : (sortKey b).1 <;> cases hc : (sortKey c).1 <;>
    simp_all
  · exact strLeB_trans _ _ _ h1 h2
  · exact strLeB_trans _ _ _ h1 h2

theorem keyLe_of_none (a b : TEvent) (ha : a.when = none) (hb : b.when = none) :
    keyLe a b = true := by
  simp [keyLe, sortKey, ha, hb, strLeB_refl]

theorem when_none_of_keyLe (a b : TEvent) (h : keyLe a b = true) (ha : a.when = none) :
    b.when = none := by
  simp only [keyLe, sortKey, ha] at h
  cases hb : b.when with
  | none => rfl
  | some s => simp [hb] at h

/-- C3: the event sequence produced by the Timeline Builder is totally
ordered by the key `(instant is null, instant, insertion order)`: the
output is pairwise ordered by the sort key; every event after a
null-instant event also has a null instant (null instants sort last);
events with null instants keep their relative input order (stability);
and re-sorting the produced sequence leaves it unchanged, so the
builder — a pure function of its input — is deterministic and
idempotent on unchanged input. -/
theorem timeline_events_totally_ordered (doc : TDoc) (full : List Char)
    (sections : List TSection) (ents : List TEntity) :
    (build_timeline_events doc full sections ents).Pairwise (fun a b => keyLe a b = true) ∧
    (∀ l1 a l2, build_timeline_events doc full sections ents = l1 ++ a :: l2 →
      a.when = none → ∀ b ∈ l2, b.when = none) ∧
    (build_timeline_events doc full sections ents).filter (fun e => e.when.isNone) =
      (sectionEvents doc full sections ++
        entityEvents doc (secDtAssoc full sections) ents).filter (fun e => e.when.isNone) ∧
    sortTimelineEvents (build_timeline_events doc full sections ents) =
      build_timeline_events doc full sections ents := by
  have hso :=
    stableSort_pairwise keyLe keyLe_trans keyLe_total
      (sectionEvents doc full sections ++ entityEvents doc (secDtAssoc full sections) ents)
  refine ⟨hso, ?_, ?_, ?_⟩
  · intro l1 a l2 hsplit hnone b hb
    have hp : (l1 ++ a :: l2).Pairwise (fun a b => keyLe a b = true) := by
      rw [← hsplit]; exact hso
    have hp2 : (a :: l2).Pairwise (fun a b => keyLe a b = true) :=
      hp.sublist (List.sublist_append_right l1 (a :: l2))
    exact when_none_of_keyLe a b ((List.pairwise_cons.mp hp2).1 b hb) hnone
  · exact stableSort_filter keyLe _
      (fun a b hpa hpb =>
        keyLe_of_none a b (Option.isNone_iff_eq_none.mp hpa) (Option.isNone_iff_eq_none.mp hpb))
      _
  · exact stableSort_idem keyLe keyLe_trans keyLe_total _

/-- Witness for C3 at a concrete input: a two-section document with no
timestamps; the second event after the first (null-instant) one indeed
has a null instant. -/
theorem timeline_events_totally_ordered_witness :
    (⟨"daily_note", none, some 2, some 0, some 2⟩ : TEvent).when = none :=
  (timeline_events_totally_ordered ⟨none⟩ "ab".toList
      [⟨1, "daily_note", 0, 2⟩, ⟨2, "daily_note", 0, 2⟩] []).2.1
    [] ⟨"daily_note", none, some 1, some 0, some 2⟩
    [⟨"daily_note", none, some 2, some 0, some 2⟩] (by decide) rfl
    ⟨"daily_note", none, some 2, some 0, some 2⟩ (by decide)

theorem dedup_filter_of_seen (d : String) :
    ∀ (seen : List String) (sigs : List DNSignal), seen.contains d = true →
      (dedupDailyNotes seen sigs).filter (dayIs d) = [] := by
  intro seen sigs
  induction sigs generalizing seen with
  | nil => intro _; rfl
  | cons sig rest ih =>
    intro hd
    have hmem : d ∈ seen := by simpa using hd
    cases hts : sig.ts with
    | none =>
      have hday : dayIs d sig = false := by simp [dayIs, hts]
      simp only [dedupDailyNotes, hts]
      rw [List.filter_cons, if_neg (by simp [hday])]
      exact ih seen hd
    | some t =>
      simp only [dedupDailyNotes, hts]
      by_cases hk : seen.contains (dateKey t) = true
      · simp only [hk, if_true]
        exact ih seen hd
      · have hkmem : dateKey t ∉ seen := by
          intro h
          exact hk (by simpa using h)
        have hne : (dateKey t == d) = false := by
          cases he : dateKey t == d
          · rfl
          · exact absurd (eq_of_beq he ▸ hmem) hkmem
        have hday : dayIs d sig = false := by simp [dayIs, hts, hne]
        have hcons : (dateKey t :: seen).contains d = true := by
          simp [List.contains_cons, hmem]
        simp only [Bool.not_eq_true] at hk
        rw [hk, if_neg (by decide)]
        rw [List.filter_cons, if_neg (by simp [hday])]
        exact ih (dateKey t :: seen) hcons

theorem dedup_filter_of_unseen (d : String) :
    ∀ (seen : List String) (sigs : List DNSignal), seen.contains d = false →
      (dedupDailyNotes seen sigs).filter (dayIs d) = (sigs.filter (dayIs d)).take 1 := by
  intro seen sigs
  induction sigs generalizing seen with
  | nil => intro _; rfl
  | cons sig rest ih =>
    intro hd
    have hmem : d ∉ seen := by
      intro h
      rw [(by simpa using h : seen.contains d = true)] at hd
      exact absurd hd (by decide)
    cases hts : sig.ts with
    | none =>
      have hday : dayIs d sig = false := by simp [dayIs, hts]
      simp only [dedupDailyNotes, hts]
      simp [List.filter_cons, hday]
      exact ih seen hd
    | some t =>
      simp only [dedupDailyNotes, hts]
      by_cases hk : seen.contains (dateKey t) = true
      · have hne : (dateKey t == d) = false := by
          cases he : dateKey t == d
          · rfl
          · exact absurd (eq_of_beq he ▸ (by simpa using hk : dateKey t ∈ seen)) hmem
        have hday : dayIs d sig = false := by simp [dayIs, hts, hne]
        simp only [hk, if_true]
        rw [ih seen hd, List.filter_cons, if_neg (by simp [hday])]
      · simp only [Bool.not_eq_true] at hk
        simp only [hk, if_false]
        by_cases he : (dateKey t == d) = true
        · have hdeq : dateKey t = d := eq_of_beq he
          have hday : dayIs d sig = true := by simp [dayIs, hts, he]
          have hcons : (d :: seen).contains d = true := by simp [List.contains_cons]
          rw [hdeq]
          simp [List.filter_cons, hday,
            dedup_filter_of_seen d (d :: seen) rest hcons]
        · simp only [Bool.not_eq_true] at he
          have hday : dayIs d sig = false := by simp [dayIs, hts, he]
          have hcons : (dateKey t :: seen).contains d = false := by
            have h1 : ¬ d = dateKey t := by
              intro h
              rw [h, beq_self_eq_true] at he
              exact absurd he (by decide)
            simp [List.contains_cons, h1, hmem]
          simp [List.filter_cons, hday]
          exact ih (dateKey t :: seen) hcons

theorem dedup_sublist :
    ∀ (seen : List String) (sigs : List DNSignal),
      (dedupDailyNotes seen sigs).Sublist sigs := by
  intro seen sigs
  induction sigs generalizing seen with
  | nil => exact List.Sublist.refl _
  | cons sig rest ih =>
    cases hts : sig.ts with
    | none =>
      simp only [dedupDailyNotes, hts]
      exact (ih seen).cons₂ sig
    | some t =>
      simp only [dedupDailyNotes, hts]
      by_cases hk : seen.contains (dateKey t) = true
      · simp only [hk, if_true]
        exact (ih seen).cons sig
      · simp only [Bool.not_eq_true] at hk
        simp only [hk, if_false]
        exact (ih (dateKey t :: seen)).cons₂ sig

theorem dedup_keeps_null_ts :
    ∀ (seen : List String) (sigs : List DNSignal),
      (dedupDailyNotes seen sigs).filter (fun s => s.ts.isNone) =
        sigs.filter (fun s => s.ts.isNone) := by
  intro seen sigs
  induction sigs generalizing seen with
  | nil => rfl
  | cons sig rest ih =>
    cases hts : sig.ts with
    | none =>
      simp only [dedupDailyNotes, hts]
      simp [List.filter_cons, hts]
      exact ih seen
    | some t =>
      simp only [dedupDailyNotes, hts]
      by_cases hk : seen.contains (dateKey t) = true
      · simp only [hk, if_true]
        rw [ih seen]
        simp [List.filter_cons, hts]
      · simp only [Bool.not_eq_true] at hk
        rw [hk, if_neg (by decide)]
        simp [List.filter_cons, hts]
        exact ih (dateKey t :: seen)

/-- C6 counterexample: the claim quantifies over the daily_note events
produced for a document, but the Timeline Builder (`build_timeline`,
step 1) emits one event per daily_note section with no per-day
deduplication: a document with two daily_note sections dated on the
same calendar day yields two surviving daily_note events for that
day. -/
theorem daily_note_per_day_counterexample :
    ((build_timeline_events ⟨none⟩
        ("note 01.09.2025 10:00 x\nnote 01.09.2025 18:00 y".toList)
        [⟨1, "daily_note", 0, 23⟩, ⟨2, "daily_note", 24, 47⟩] []).filter
      (fun e => e.kind == "daily_note" &&
        (match e.when with
         | some t => dateKey t == "2025-09-01"
         | none => false))).length = 2 := by
  decide

/-- C6 amended: the per-calendar-day deduplication of daily_note
signals happens at the entity-extraction stage (`run_entities`), not in
the Timeline Builder. There, for every calendar day `d`, the surviving
daily_note signals dated `d` are exactly the first input signal dated
`d` (the earliest signal in input order is kept, every later duplicate
for that day is dropped), and the output is a sublist of the input
(signals are dropped, never merged or modified); the function is
deterministic. -/
theorem daily_note_per_day_entity_stage (sigs : List DNSignal) (d : String) :
    (run_entities_daily_notes sigs).filter (dayIs d) = (sigs.filter (dayIs d)).take 1 ∧
    (run_entities_daily_notes sigs).Sublist sigs := by
  constructor
  · exact dedup_filter_of_unseen d [] sigs rfl
  · exact dedup_sublist [] sigs

/-- C10: the per-day deduplication applies only to signals whose
timestamp parses: the daily_note signals without a timestamp that
survive `run_entities` are exactly those of the input, each emitted as
its own event — so several daily_note events with null instants can
coexist, as the concrete two-null-signal run shows. -/
theorem daily_note_null_ts_all_kept (sigs : List DNSignal) :
    (run_entities_daily_notes sigs).filter (fun s => s.ts.isNone) =
      sigs.filter (fun s => s.ts.isNone) ∧
    run_entities_daily_notes [⟨0, none⟩, ⟨1, none⟩] = [⟨0, none⟩, ⟨1, none⟩] := by
  constructor
  · exact dedup_keeps_null_ts [] sigs
  · decide

theorem mem_insertProf (l : List String) (p x : String) (h : x ∈ l) :
    x ∈ insertProf l p := by
  unfold insertProf
  split
  · exact h
  · exact List.mem_append_left _ h

theorem insertProf_self (l : List String) (p : String) : p ∈ insertProf l p := by
  unfold insertProf
  split
  · rename_i h
    simpa using h
  · exact List.mem_append_right _ (List.mem_singleton.mpr rfl)

theorem mem_deptFold (dept : String) :
    ∀ (pairs : List (String × String)) (acc : List String) (x : String), x ∈ acc →
      x ∈ pairs.foldl
        (fun acc kp => if containsSub dept kp.1 then insertProf acc kp.2 else acc) acc := by
  intro pairs
  induction pairs with
  | nil => intro acc x h; exact h
  | cons kp rest ih =>
    intro acc x h
    simp only [List.foldl_cons]
    apply ih
    split
    · exact mem_insertProf acc kp.2 x h
    · exact h

theorem mem_deptFold_of_key (dept k p : String) :
    ∀ (pairs : List (String × String)) (acc : List String), (k, p) ∈ pairs →
      containsSub dept k = true →
      p ∈ pairs.foldl
        (fun acc kp => if containsSub dept kp.1 then insertProf acc kp.2 else acc) acc := by
  intro pairs
  induction pairs with
  | nil => intro acc h; simp at h
  | cons kp rest ih =>
    intro acc hmem hsub
    rcases List.mem_cons.mp hmem with heq | htail
    · subst heq
      simp only [List.foldl_cons, hsub, if_true]
      exact mem_deptFold dept rest _ p (insertProf_self acc p)
    · simp only [List.foldl_cons]
      exact ih _ htail hsub

theorem mem_sortStrings (l : List String) (x : String) :
    x ∈ sortStrings l ↔ x ∈ l :=
  (stableSort_perm _ l).mem_iff

/-- C9: for every input — any document row, any entity list, any event
list — the Profile Inferencer's result contains the baseline profile
`STA` and is therefore a non-empty list, sorted in ascending string
order. -/
theorem infer_profiles_always_STA (doc : PDoc) (entities : List PEntity)
    (events : List PEvent) :
    "STA" ∈ infer_profiles doc entities events ∧
    infer_profiles doc entities events ≠ [] ∧
    (infer_profiles doc entities events).Pairwise
      (fun a b => strLeB a.toList b.toList = true) := by
  have hSTA : "STA" ∈ infer_profiles doc entities events := by
    unfold infer_profiles
    rw [mem_sortStrings]
    unfold profilesWithDept
    exact mem_deptFold _ _ _ _ (insertProf_self _ "STA")
  refine ⟨hSTA, List.ne_nil_of_mem hSTA, ?_⟩
  exact stableSort_pairwise (fun a b : String => strLeB a.toList b.toList)
    (fun a b c h1 h2 => strLeB_trans _ _ _ h1 h2)
    (fun a b => strLeB_total _ _) (profilesWithDept doc events)

/-- C5 counterexample: a patient-age entity does not produce `NEO` or
`PED`. The Profile Inferencer never reads the entity rows (for any
payload a patient-age entity might carry), so with an age entity
resolving to 5 days — well under 28 — and no department metadata, the
result is the bare baseline without `NEO`, refuting the claim. -/
theorem infer_profiles_age_counterexample :
    infer_profiles ⟨none, none⟩ [⟨"patient_age"⟩] [] = ["STA"] ∧
    "NEO" ∉ infer_profiles ⟨none, none⟩ [⟨"patient_age"⟩] [] ∧
    "PED" ∉ infer_profiles ⟨none, none⟩ [⟨"patient_age"⟩] [] := by
  refine ⟨by decide, ?_, ?_⟩ <;> decide

/-- C5 amended: the Profile Inferencer ignores the entity list entirely
(the result is the same for any two entity lists), and `NEO`/`PED` are
added only by department-keyword matching: a department containing
"неонат" yields `NEO`, one containing "педиатр" yields `PED`. -/
theorem infer_profiles_dept_only (doc : PDoc) (ents1 ents2 : List PEntity)
    (events : List PEvent) :
    infer_profiles doc ents1 events = infer_profiles doc ents2 events ∧
    (containsSub (deptLower doc) "неонат" = true →
      "NEO" ∈ infer_profiles doc ents1 events) ∧
    (containsSub (deptLower doc) "педиатр" = true →
      "PED" ∈ infer_profiles doc ents1 events) := by
  refine ⟨rfl, ?_, ?_⟩
  · intro h
    unfold infer_profiles
    rw [mem_sortStrings]
    unfold profilesWithDept
    exact mem_deptFold_of_key _ "неонат" "NEO" deptProfileMap _ (by decide) h
  · intro h
    unfold infer_profiles
    rw [mem_sortStrings]
    unfold profilesWithDept
    exact mem_deptFold_of_key _ "педиатр" "PED" deptProfileMap _ (by decide) h

/-- Witness for the C5 amended theorem at a concrete department that
matches both keywords. -/
theorem infer_profiles_dept_only_witness :
    "NEO" ∈ infer_profiles ⟨some "неонат/педиатр", none⟩ [] [] ∧
    "PED" ∈ infer_profiles ⟨some "неонат/педиатр", none⟩ [] [] :=
  ⟨(infer_profiles_dept_only ⟨some "неонат/педиатр", none⟩ [] [] []).2.1 (by decide),
   (infer_profiles_dept_only ⟨some "неонат/педиатр", none⟩ [] [] []).2.2 (by decide)⟩

/-- C4 counterexample: `load_active_rules` applies no effective-date
filtering. An enabled `STA` rule of the active package whose
`effective_to` lies years in the past (its window excludes any current
instant such as 2026-10-12) is still returned, refuting the claim that
rules whose effective window excludes "now" are excluded. -/
theorem load_active_rules_effective_counterexample :
    load_active_rules
        [⟨"STA-001", 1, none, none, "STA", some "major", true, none, some "2020-01-01"⟩]
        [⟨1, "pack", "1", true⟩] ["STA"] none none =
      [⟨"STA-001", 1, none, none, "STA", some "major", true, none, some "2020-01-01"⟩] ∧
    specEffectiveWindowIncludes "2026-10-12T00:00:00"
      ⟨"STA-001", 1, none, none, "STA", some "major", true, none, some "2020-01-01"⟩ = false := by
  constructor <;> decide

/-- C4 amended: `load_active_rules` returns exactly the enabled rules
whose profile lies in the given set (defaulting to `STA` when the set is
empty) and that belong to the named package/version when both are given
(via the denormalized rule columns or the package table), else to a
package marked active — with no effective-date condition: membership
never depends on `effective_from`/`effective_to` or on the current
time. -/
theorem load_active_rules_members (rules : List NormRule) (pkgs : List NormPackage)
    (profiles : List String) (r : NormRule) :
    (r ∈ load_active_rules rules pkgs profiles none none ↔
      r ∈ rules ∧ r.enabled = true ∧
        (∃ p ∈ pkgs, p.pkg_id = r.pkg_id ∧ p.active = true) ∧
        r.profile ∈ (if profiles.isEmpty then ["STA"] else profiles)) ∧
    (∀ pn pv : String, pn ≠ "" → pv ≠ "" →
      (r ∈ load_active_rules rules pkgs profiles (some pn) (some pv) ↔
        r ∈ rules ∧ r.enabled = true ∧
          r.profile ∈ (if profiles.isEmpty then ["STA"] else profiles) ∧
          ((r.package_name = some pn ∧ r.package_version = some pv) ∨
            ∃ p ∈ pkgs, p.name = pn ∧ p.version = pv ∧ p.pkg_id = r.pkg_id))) := by
  constructor
  · show r ∈ activePkgRules rules pkgs (if profiles.isEmpty then ["STA"] else profiles) ↔ _
    unfold activePkgRules sortByRuleId
    rw [(stableSort_perm _ _).mem_iff, List.mem_filter]
    simp only [Bool.and_eq_true, List.any_eq_true, beq_iff_eq]
    simp
    tauto
  · intro pn pv hpn hpv
    have hcond : ¬ ((pn == "" || pv == "") = true) := by simp [hpn, hpv]
    simp only [load_active_rules]
    rw [if_neg hcond]
    unfold sortByRuleId
    rw [(stableSort_perm _ _).mem_iff, List.mem_filter]
    simp only [Bool.and_eq_true, Bool.or_eq_true, List.any_eq_true, beq_iff_eq]
    simp
    tauto

/-- Witness for the C4 amended theorem at a one-rule, one-package
catalog, exercising both the active-package branch and the
named-package branch. -/
theorem load_active_rules_members_witness :
    (⟨"STA-001", 1, some "pack", some "1", "STA", some "major", true, none, none⟩ : NormRule) ∈
      load_active_rules
        [⟨"STA-001", 1, some "pack", some "1", "STA", some "major", true, none, none⟩]
        [⟨1, "pack", "1", true⟩] ["STA"] none none ∧
    (⟨"STA-001", 1, some "pack", some "1", "STA", some "major", true, none, none⟩ : NormRule) ∈
      load_active_rules
        [⟨"STA-001", 1, some "pack", some "1", "STA", some "major", true, none, none⟩]
        [⟨1, "pack", "1", true⟩] ["STA"] (some "pack") (some "1") :=
  ⟨(load_active_rules_members
      [⟨"STA-001", 1, some "pack", some "1", "STA", some "major", true, none, none⟩]
      [⟨1, "pack", "1", true⟩] ["STA"]
      ⟨"STA-001", 1, some "pack", some "1", "STA", some "major", true, none, none⟩).1.mpr
    (by simp),
   ((load_active_rules_members
      [⟨"STA-001", 1, some "pack", some "1", "STA", some "major", true, none, none⟩]
      [⟨1, "pack", "1", true⟩] ["STA"]
      ⟨"STA-001", 1, some "pack", some "1", "STA", some "major", true, none, none⟩).2
    "pack" "1" (by decide) (by decide)).mpr (by simp)⟩

/-- C1: the rules step only INSERTs violations — no statement anywhere
in the repository deletes prior violations for a document — so running
`run_rules` twice on unchanged inputs does not leave the stored
violation set identical: at the failing input (an empty store, one
enabled rule producing one violation) the first run stores one row and
the identical second run accumulates a duplicate, giving two rows. -/
theorem run_rules_store_accumulates :
    (run_rules_store [] (fun _ => some (Except.ok [("STA-001", "major", "m")])) "D1"
        [⟨"STA-001", 1, none, none, "STA", some "major", true, none, none⟩]).length = 1 ∧
    (run_rules_store
        (run_rules_store [] (fun _ => some (Except.ok [("STA-001", "major", "m")])) "D1"
          [⟨"STA-001", 1, none, none, "STA", some "major", true, none, none⟩])
        (fun _ => some (Except.ok [("STA-001", "major", "m")])) "D1"
        [⟨"STA-001", 1, none, none, "STA", some "major", true, none, none⟩]).length = 2 ∧
    run_rules_store
        (run_rules_store [] (fun _ => some (Except.ok [("STA-001", "major", "m")])) "D1"
          [⟨"STA-001", 1, none, none, "STA", some "major", true, none, none⟩])
        (fun _ => some (Except.ok [("STA-001", "major", "m")])) "D1"
        [⟨"STA-001", 1, none, none, "STA", some "major", true, none, none⟩] ≠
      run_rules_store [] (fun _ => some (Except.ok [("STA-001", "major", "m")])) "D1"
        [⟨"STA-001", 1, none, none, "STA", some "major", true, none, none⟩] := by
  refine ⟨by decide, by decide, by decide⟩

/-- C2 counterexample: when a rule's evaluator raises, the recorded
violation's severity is `str(r.get("severity","minor"))` — the rule's
configured severity — not the literal `minor`: a raising rule
configured `critical` yields a `critical` error violation. -/
theorem run_rules_error_severity_counterexample :
    run_rules_violations (fun _ => some (Except.error "boom")) "D1"
        [⟨"ER-001", 1, none, none, "ER", some "critical", true, none, none⟩] =
      [⟨"D1", "ER-001", "critical", "Ошибка исполнения правила: boom", "ER-001"⟩] ∧
    ("critical" : String) ≠ "minor" := by
  refine ⟨by decide, by decide⟩

/-- C2 amended: when one selected rule's evaluator raises, the run
records exactly one violation for it — severity is the rule's
configured severity (a missing value prints as "None"; `minor` is only
the dead dict-default), message carrying the error text — and the
violations of every rule before and after it are produced unchanged. -/
theorem run_rules_error_isolated (impls : String → RuleOutcome) (docId : String)
    (l1 l2 : List NormRule) (r : NormRule) (ex : String)
    (h : impls r.rule_id = some (Except.error ex)) :
    run_rules_violations impls docId (l1 ++ r :: l2) =
      run_rules_violations impls docId l1 ++
        (⟨docId, r.rule_id, pyStr r.severity, "Ошибка исполнения правила: " ++ ex,
            r.rule_id⟩ ::
          run_rules_violations impls docId l2) := by
  simp [run_rules_violations, ruleContrib, h]

/-- Witness for the C2 amended theorem: a three-rule run whose middle
rule raises; the first and last rules' violations are produced and the
middle one yields exactly one critical error violation. -/
theorem run_rules_error_isolated_witness :
    run_rules_violations
        (fun rid => if rid == "STA-002" then some (Except.error "boom")
          else some (Except.ok [("X", "major", "ok")])) "D1"
        [⟨"STA-001", 1, none, none, "STA", some "major", true, none, none⟩,
         ⟨"STA-002", 1, none, none, "STA", some "critical", true, none, none⟩,
         ⟨"STA-010", 1, none, none, "STA", some "major", true, none, none⟩] =
      [⟨"D1", "X", "major", "ok", "STA-001"⟩,
       ⟨"D1", "STA-002", "critical", "Ошибка исполнения правила: boom", "STA-002"⟩,
       ⟨"D1", "X", "major", "ok", "STA-010"⟩] := by
  rw [show ([⟨"STA-001", 1, none, none, "STA", some "major", true, none, none⟩,
      ⟨"STA-002", 1, none, none, "STA", some "critical", true, none, none⟩,
      ⟨"STA-010", 1, none, none, "STA", some "major", true, none, none⟩] : List NormRule) =
    [⟨"STA-001", 1, none, none, "STA", some "major", true, none, none⟩] ++
      ⟨"STA-002", 1, none, none, "STA", some "critical", true, none, none⟩ ::
        [⟨"STA-010", 1, none, none, "STA", some "major", true, none, none⟩] from rfl]
  rw [run_rules_error_isolated _ _ _ _ _ "boom" rfl]
  decide

/-- C7: the daily-coverage rule `rule_STA_001`, on the claim's concrete
input (admit 2025-01-01T08:00, discharge 2025-01-04T10:00, daily notes
dated only 2025-01-01 and 2025-01-03), produces exactly one `major`
violation whose message lists exactly the missing dates 2025-01-02 and
2025-01-04 — every date of the inclusive `[admit.date, discharge.date]`
range lacking a daily note and no others. -/
theorem rule_STA_001_daily_coverage :
    rule_STA_001
        [⟨"admit", some "2025-01-01T08:00", none⟩,
         ⟨"discharge", some "2025-01-04T10:00", none⟩,
         ⟨"daily_note", some "2025-01-01T09:00", none⟩,
         ⟨"daily_note", some "2025-01-03T09:00", none⟩] =
      [("STA-001", "major", "Нет ежедневных записей за дни: 2025-01-02, 2025-01-04")] := by
  decide

theorem tryFormats_eq_none (s : String) :
    ∀ fmts : List Fmt, (∀ f ∈ fmts, strptime f s = none) → tryFormats s fmts = none := by
  intro fmts
  induction fmts with
  | nil => intro _; rfl
  | cons f fs ih =>
    intro h
    simp only [tryFormats, h f (List.mem_cons_self f fs)]
    exact ih (fun g hg => h g (List.mem_cons_of_mem f hg))

theorem tryFormats_first (s : String) (d : PyDateTime) :
    ∀ (l1 : List Fmt) (f : Fmt) (l2 : List Fmt), (∀ g ∈ l1, strptime g s = none) →
      strptime f s = some d → tryFormats s (l1 ++ f :: l2) = some d := by
  intro l1
  induction l1 with
  | nil =>
    intro f l2 _ hf
    simp [tryFormats, hf]
  | cons g gs ih =>
    intro f l2 h hf
    simp only [List.cons_append, tryFormats, h g (List.mem_cons_self g gs)]
    exact ih f l2 (fun g1 hg1 => h g1 (List.mem_cons_of_mem g hg1)) hf

/-- C8: the Temporal Parser is the total function `parse_dt_any` — it
returns `none` (no match, never an exception) whenever no format of the
ordered candidate list matches the stripped input, and the first
successfully matching format of `DT_PARSE_ORDER` determines the result;
the formats `DD.MM.YYYY[ HH:MM[:SS]]`, `YYYY-MM-DD[ HH:MM[:SS]]` and
bare `HH:MM[:SS]` are accepted, and `to_iso` normalizes 2-digit years to
`20YY`. -/
theorem temporal_parser_contract :
    (∀ s : String, (∀ f ∈ DT_PARSE_ORDER, strptime f (pyStrip s) = none) →
      parse_dt_any s = none) ∧
    (∀ (s : String) (l1 : List Fmt) (f : Fmt) (l2 : List Fmt) (d : PyDateTime),
      DT_PARSE_ORDER = l1 ++ f :: l2 →
      (∀ g ∈ l1, strptime g (pyStrip s) = none) →
      strptime f (pyStrip s) = some d → parse_dt_any s = some d) ∧
    parse_dt_any "21.08.2025 10:15" = some ⟨2025, 8, 21, 10, 15, 0⟩ ∧
    parse_dt_any "21.08.2025 10:15:30" = some ⟨2025, 8, 21, 10, 15, 30⟩ ∧
    parse_dt_any "21.08.2025" = some ⟨2025, 8, 21, 0, 0, 0⟩ ∧
    parse_dt_any "2025-08-21 10:15:30" = some ⟨2025, 8, 21, 10, 15, 30⟩ ∧
    parse_dt_any "10:15" = some ⟨1900, 1, 1, 10, 15, 0⟩ ∧
    parse_dt_any "10:15:30" = some ⟨1900, 1, 1, 10, 15, 30⟩ ∧
    to_iso "25/04/25" none = some "2025-04-25T00:00:00" ∧
    to_iso "25.04.07" (some "14:05") = some "2007-04-25T14:05:00" := by
  refine ⟨?_, ?_, by decide, by decide, by decide, by decide, by decide, by decide,
    by decide, by decide⟩
  · intro s h
    exact tryFormats_eq_none _ _ h
  · intro s l1 f l2 d horder h hf
    unfold parse_dt_any
    rw [horder]
    exact tryFormats_first _ d l1 f l2 h hf

/-- Witness for C8: a non-matching input yields `none`; a bare ISO date
is matched by the `%Y-%m-%d` format after the five earlier formats
fail. -/
theorem temporal_parser_contract_witness :
    parse_dt_any "дата не указана" = none ∧
    parse_dt_any "2025-08-21" = some ⟨2025, 8, 21, 0, 0, 0⟩ :=
  ⟨temporal_parser_contract.1 "дата не указана" (by decide),
   temporal_parser_contract.2.1 "2025-08-21" [.dmyHMS, .dmyHM, .dmy, .ymdHMS, .ymdHM] .ymd
     [.hms, .hm] ⟨2025, 8, 21, 0, 0, 0⟩ (by decide) (by decide) (by decide)⟩

end Medqc
